import Mathlib

/-!
Verification model of the in-memory HTTP response cache backend
(`quic_memory_cache_backend.h`, class `QuicMemoryCacheBackend`).

Only the header (declarations and documentation comments) of the backend is
in the repository sources; the method bodies live in a translation unit that
is not part of the sources.  Every operation below whose body is not visible
is therefore modelled from the specification text, and is marked with a doc
comment starting `Modelled from the spec:`.

Strings are modelled as lists of characters (`Str`), bodies byte-for-byte.
The `responses_` hash map is modelled as an association list with
set-semantics insertion (`setAssoc`), which is observationally a finite map.
-/

/-- Strings of the C++ code (`std::string` / `absl::string_view`) are
modelled as lists of characters. -/
abbrev Str := List Char

/-- Convert a Lean string literal to the model's string type. -/
def str (s : String) : Str := s.data

namespace QuicMemCache

/-! ### Association-list finite map (model of `absl::flat_hash_map`) -/

/-- Lookup of a key in an association list (first match). -/
def lookupAssoc {κ α : Type} [DecidableEq κ] (k : κ) : List (κ × α) → Option α
  | [] => none
  | (k', v) :: rest => if k' = k then some v else lookupAssoc k rest

/-- Map-style insertion: replace the value at the key if present, else
append the binding.  Models `map[key] = value` on a hash map. -/
def setAssoc {κ α : Type} [DecidableEq κ] (k : κ) (v : α) : List (κ × α) → List (κ × α)
  | [] => [(k, v)]
  | (k', v') :: rest => if k' = k then (k, v) :: rest else (k', v') :: setAssoc k v rest

theorem lookupAssoc_setAssoc {κ α : Type} [DecidableEq κ] (k k' : κ) (v : α)
    (l : List (κ × α)) :
    lookupAssoc k' (setAssoc k v l) = if k' = k then some v else lookupAssoc k' l := by
  induction l with
  | nil =>
    by_cases h : k = k'
    · simp [setAssoc, lookupAssoc, h]
    · simp [setAssoc, lookupAssoc, h, Ne.symm h]
  | cons e rest ih =>
    obtain ⟨k₀, v₀⟩ := e
    by_cases h0 : k₀ = k
    · subst h0
      by_cases h : k₀ = k'
      · simp [setAssoc, lookupAssoc, h]
      · simp [setAssoc, lookupAssoc, h, Ne.symm h]
    · by_cases h1 : k₀ = k'
      · have hne : ¬ k' = k := fun hh => h0 (h1.trans hh)
        simp [setAssoc, lookupAssoc, h0, h1, hne]
      · simp [setAssoc, lookupAssoc, h0, h1, ih]

/-! ### Responses (model of `QuicBackendResponse`) -/

/-- The special response taxonomy of the server-backend contract
(spec section 3: `Normal`, `CloseConnection`, `IgnoreRequest`,
`Backoff/RetryLater`, `GenerateBytes`). -/
inductive SpecialResponseType : Type
  | REGULAR_RESPONSE
  | CLOSE_CONNECTION
  | IGNORE_REQUEST
  | BACKLOG_RESPONSE
  | GENERATE_BYTES
deriving DecidableEq, Repr

/-- Model of `QuicBackendResponse`: headers, body, trailers, early hints,
special type, and an optional simulated delay (spec section 3,
`CacheEntry`). -/
structure QuicBackendResponse : Type where
  response_type : SpecialResponseType
  headers : List (Str × Str)
  body : Str
  trailers : List (Str × Str)
  early_hints : List (List (Str × Str))
  delay : Option Nat
deriving DecidableEq, Repr

/-- Model of the `QuicMemoryCacheBackend` state: the cached responses map,
the default response, the generate-bytes response (its presence is the
dynamic-mode flag), and the two booleans of the header. -/
structure QuicMemoryCacheBackend : Type where
  responses : List (Str × QuicBackendResponse)
  default_response : Option QuicBackendResponse
  generate_bytes_response : Option QuicBackendResponse
  cache_initialized : Bool
  enable_webtransport : Bool
deriving DecidableEq, Repr

/-- The freshly constructed backend: empty map, no default, dynamic mode
off, not initialized. -/
def initialBackend : QuicMemoryCacheBackend :=
  { responses := []
    default_response := none
    generate_bytes_response := none
    cache_initialized := false
    enable_webtransport := false }

/-! ### Key derivation -/

/-- The key separator.  Modelled from the spec: the key is a
"concatenation with a separator that cannot appear in either component"
(spec section 3, CacheKey); the NUL character never occurs in a host or a
path. -/
def keySep : Char := Char.ofNat 0

/-- Modelled from the spec: `GetKey` (body not in the sources) derives the
cache key deterministically from `(host, path)` as the concatenation of the
two components around `keySep`. -/
def GetKey (host path : Str) : Str := host ++ keySep :: path

/-! ### Decimal paths and the dynamic (generate-bytes) response -/

/-- Parse a string as a non-negative decimal integer: it must be non-empty
and consist solely of decimal digits. -/
def parseDec (s : Str) : Option Nat :=
  if s ≠ [] ∧ s.all Char.isDigit then
    some (s.foldl (fun a c => 10 * a + (c.toNat - 48)) 0)
  else none

/-- Decimal representation of a natural number, as a model string. -/
def natToStr (n : Nat) : Str := Nat.toDigits 10 n

/-- Decimal representation of a C++ `int`, as a model string. -/
def intToStr : Int → Str
  | Int.ofNat n => natToStr n
  | Int.negSucc n => '-' :: natToStr (n + 1)

/-- Modelled from the spec: the transient entry synthesized in dynamic mode
for a numeric path of value `n`: status 200, a content-length header for
`n`, and a body of `n` bytes (spec section 4.2, lookup). -/
def dynamicResponse (n : Nat) : QuicBackendResponse :=
  { response_type := SpecialResponseType.GENERATE_BYTES
    headers := [(str ":status", str "200"), (str "content-length", natToStr n)]
    body := List.replicate n 'x'
    trailers := []
    early_hints := []
    delay := none }

/-! ### Lookup -/

/-- Modelled from the spec: `GetResponse` (body not in the sources) returns
the entry stored under the derived key if present; else the default entry
if set; else, if dynamic mode is enabled and the path parses as a
non-negative decimal integer, the synthesized transient entry of that byte
length; else "not found" (spec section 4.2, lookup). -/
def GetResponse (b : QuicMemoryCacheBackend) (host path : Str) :
    Option QuicBackendResponse :=
  match lookupAssoc (GetKey host path) b.responses with
  | some r => some r
  | none =>
    match b.default_response with
    | some d => some d
    | none =>
      if b.generate_bytes_response.isSome then
        match parseDec path with
        | some n => some (dynamicResponse n)
        | none => none
      else none

/-! ### Insertion -/

/-- Modelled from the spec: `AddResponseImpl` (body not in the sources)
builds a `QuicBackendResponse` from its arguments and publishes it in the
map under the derived key, overwriting any existing entry (spec
section 4.2, insert). -/
def AddResponseImpl (b : QuicMemoryCacheBackend) (host path : Str)
    (response_type : SpecialResponseType) (response_headers : List (Str × Str))
    (response_body : Str) (response_trailers : List (Str × Str))
    (early_hints : List (List (Str × Str))) : QuicMemoryCacheBackend :=
  { b with
    responses :=
      setAssoc (GetKey host path)
        { response_type := response_type
          headers := response_headers
          body := response_body
          trailers := response_trailers
          early_hints := early_hints
          delay := none } b.responses }

/-- Modelled from the spec: `AddResponse` (two-argument form) stores a
normal response with the given headers and body, no trailers and no early
hints. -/
def AddResponse (b : QuicMemoryCacheBackend) (host path : Str)
    (response_headers : List (Str × Str)) (response_body : Str) :
    QuicMemoryCacheBackend :=
  AddResponseImpl b host path SpecialResponseType.REGULAR_RESPONSE
    response_headers response_body [] []

/-- Modelled from the spec and the header comment: `AddSimpleResponse`
stores a response whose headers contain only the status pseudo-header for
`response_code` and a "content-length" header with the length of `body`. -/
def AddSimpleResponse (b : QuicMemoryCacheBackend) (host path : Str)
    (response_code : Int) (body : Str) : QuicMemoryCacheBackend :=
  AddResponse b host path
    [(str ":status", intToStr response_code),
     (str "content-length", natToStr body.length)] body

/-- Modelled from the spec: `AddDefaultResponse` replaces the default-miss
entry (spec section 4.2, setDefault). -/
def AddDefaultResponse (b : QuicMemoryCacheBackend)
    (response : QuicBackendResponse) : QuicMemoryCacheBackend :=
  { b with default_response := some response }

/-- Modelled from the spec: `GenerateDynamicResponses` enables dynamic mode
by installing the generate-bytes response (spec section 4.2,
enableDynamicMode; the stored singleton carries status 200). -/
def GenerateDynamicResponses (b : QuicMemoryCacheBackend) :
    QuicMemoryCacheBackend :=
  { b with
    generate_bytes_response := some
      { response_type := SpecialResponseType.GENERATE_BYTES
        headers := [(str ":status", str "200")]
        body := []
        trailers := []
        early_hints := []
        delay := none } }

/-- Modelled from the spec: `SetResponseDelay` mutates the `delay` of an
existing entry in place and reports whether a matching entry existed (spec
section 4.2, setDelay). -/
def SetResponseDelay (b : QuicMemoryCacheBackend) (host path : Str)
    (delay : Nat) : Bool × QuicMemoryCacheBackend :=
  match lookupAssoc (GetKey host path) b.responses with
  | none => (false, b)
  | some r =>
    (true,
     { b with responses :=
        setAssoc (GetKey host path) { r with delay := some delay } b.responses })

/-- `GetResponse` as a state-passing operation.  The C++ method is `const`
(it only reads the store under the lock), so the post-state equals the
pre-state. -/
def GetResponseS (b : QuicMemoryCacheBackend) (host path : Str) :
    Option QuicBackendResponse × QuicMemoryCacheBackend :=
  (GetResponse b host path, b)

/-- Run a sequence of lookups, threading the store state through the
state-passing `GetResponseS`. -/
def runLookups (b : QuicMemoryCacheBackend) :
    List (Str × Str) → QuicMemoryCacheBackend
  | [] => b
  | (host, path) :: rest => runLookups (GetResponseS b host path).2 rest

/-! ### Capture-file parsing (model of `ResourceFile`) -/

/-- Split a raw capture at the first blank-line delimiter into the header
block and the body slice; `none` when no delimiter occurs (spec
section 4.1, step 1). -/
def splitBlank : Str → Option (Str × Str)
  | [] => none
  | '\n' :: '\n' :: rest => some ([], rest)
  | c :: rest => (splitBlank rest).map (fun p => (c :: p.1, p.2))

/-- Split a string into its lines at newline characters. -/
def splitLines : Str → List Str
  | [] => [[]]
  | '\n' :: rest => [] :: splitLines rest
  | c :: rest =>
    match splitLines rest with
    | [] => [[c]]
    | l :: ls => (c :: l) :: ls

/-- Split a header line at the first colon into name and value; `none`
when the line has no colon. -/
def splitColon : Str → Option (Str × Str)
  | [] => none
  | ':' :: rest => some ([], rest)
  | c :: rest => (splitColon rest).map (fun p => (c :: p.1, p.2))

/-- Split a string into words at space characters, dropping empty words. -/
def splitWords (s : Str) : List Str :=
  (splitOnChar ' ' s).filter (fun w => w ≠ [])
where
  /-- Split at every occurrence of the character. -/
  splitOnChar (sep : Char) : Str → List Str
    | [] => [[]]
    | c :: rest =>
      match splitOnChar sep rest with
      | [] => if c = sep then [[], []] else [[c]]
      | l :: ls => if c = sep then [] :: l :: ls else (c :: l) :: ls

/-- Parse the status line of a capture (e.g. `HTTP/1.1 200 OK`): the second
word must be a decimal numeral, which is the status code; `none` otherwise
(spec section 4.1, step 2: an unparsable status line is malformed). -/
def parseStatus (line : Str) : Option Str :=
  match splitWords line with
  | _ :: code :: _ =>
    if code ≠ [] ∧ code.all Char.isDigit then some code else none
  | _ => none

/-- Parse the non-status header lines into ordered name/value pairs; the
value has leading spaces trimmed; lines without a colon are skipped. -/
def parseHeaderLines (lines : List Str) : List (Str × Str) :=
  lines.filterMap fun l =>
    (splitColon l).map fun p => (p.1, p.2.dropWhile (fun c => c = ' '))

/-- Modelled from the spec: strip the URL scheme from a URL (spec
section 4.1, steps 3 and 5; `ResourceFile::RemoveScheme`, body not in the
sources). -/
def removeScheme : Str → Str
  | 'h' :: 't' :: 't' :: 'p' :: 's' :: ':' :: '/' :: '/' :: rest => rest
  | 'h' :: 't' :: 't' :: 'p' :: ':' :: '/' :: '/' :: rest => rest
  | u => u

/-- A parsed capture file: ordered headers (status pseudo-header first),
body slice, and the scheme-stripped push URLs found in the headers. -/
structure ParsedCapture : Type where
  headers : List (Str × Str)
  body : Str
  pushUrls : List Str
deriving DecidableEq, Repr

/-- Modelled from the spec: the capture-file parser (`ResourceFile::Read`,
body not in the sources).  Splits the raw bytes at the first blank line
into header block and body; fails if there is no blank line.  The first
header-block line is the status line, special-cased into the `:status`
pseudo-header; an unparsable status line fails.  The remaining lines are
parsed as `Name: Value` pairs; `x-push-url` headers are collected
(scheme-stripped) as push URL hints (spec section 4.1). -/
def parseCapture (contents : Str) : Option ParsedCapture :=
  match splitBlank contents with
  | none => none
  | some (headerBlock, bodySlice) =>
    let lines := splitLines headerBlock
    match parseStatus (lines.headD []) with
    | none => none
    | some code =>
      let hdrs := parseHeaderLines (lines.tail)
      some
        { headers := (str ":status", code) :: hdrs
          body := bodySlice
          pushUrls :=
            hdrs.filterMap fun p =>
              if p.1 = str "x-push-url" then some (removeScheme p.2) else none }

/-- Modelled from the spec: derive `(host, path)` from a base (a file path
relative to the capture root, or a scheme-stripped URL): the first path
component is the host, the remainder starting at the first slash is the
URL path (spec section 4.1, step 4; `ResourceFile::SetHostPathFromBase`,
body not in the sources). -/
def splitHostPath : Str → Str × Str
  | [] => ([], ['/'])
  | '/' :: rest => ([], '/' :: rest)
  | c :: rest =>
    let p := splitHostPath rest
    (c :: p.1, p.2)

/-- The derived cache key of a scheme-stripped URL or base. -/
def urlKey (u : Str) : Str :=
  GetKey (splitHostPath u).1 (splitHostPath u).2

/-- Modelled from the spec: the `(host, path)` under which a top-level
capture file is stored: the `X-Original-URL` override header, scheme
stripped, supersedes the derivation from the file's base path (spec
section 4.1, step 3; `ResourceFile::HandleXOriginalUrl`, body not in the
sources). -/
def captureHostPath (base : Str) (pc : ParsedCapture) : Str × Str :=
  match lookupAssoc (str "x-original-url") pc.headers with
  | some v => splitHostPath (removeScheme v)
  | none => splitHostPath base

/-- The cache entry built from a parsed capture. -/
def captureResponse (pc : ParsedCapture) : QuicBackendResponse :=
  { response_type := SpecialResponseType.REGULAR_RESPONSE
    headers := pc.headers
    body := pc.body
    trailers := []
    early_hints := []
    delay := none }

/-- Publish a parsed capture in the map under an explicit key. -/
def insertUnderKey (k : Str) (pc : ParsedCapture)
    (b : QuicMemoryCacheBackend) : QuicMemoryCacheBackend :=
  { b with responses := setAssoc k (captureResponse pc) b.responses }

/-- Whether the store already holds an entry under the key. -/
def containsKey (b : QuicMemoryCacheBackend) (k : Str) : Bool :=
  (lookupAssoc k b.responses).isSome

/-! ### Bootstrap (model of `InitializeBackend`)

A capture directory is an association list from base paths (which coincide
with scheme-stripped URLs) to raw file contents.  Push URLs are followed
recursively; the recursion is written with explicit fuel and its
fuel-independence is proved below (claim about termination). -/

/-- A capture directory: base path (relative to the capture root) mapped
to raw file contents. -/
abbrev CaptureDir := List (Str × Str)

/-- Modelled from the spec: load the resources a worklist of push URLs
refers to, depth-first (the recursion of the bootstrap, written with its
stack explicit: a loaded resource's own push URLs are prepended to the
worklist).  A push URL whose derived key is already present in the store
is not re-parsed (cycle safety); otherwise the URL is resolved against the
capture root (a push URL with no file under the root is skipped), the file
is parsed (a parse failure aborts the whole bootstrap), published under the
URL's derived key, and its own push URLs are pushed onto the worklist (spec
section 4.3, Bootstrap).  The fuel argument makes the recursion structural;
fuel-independence above the `potential` measure is proved below. -/
def loadResources (dir : CaptureDir) : Nat → QuicMemoryCacheBackend →
    List Str → Option QuicMemoryCacheBackend
  | _, b, [] => some b
  | 0, _, _ :: _ => none
  | fuel + 1, b, url :: rest =>
    if containsKey b (urlKey url) then loadResources dir fuel b rest
    else
      match lookupAssoc url dir with
      | none => loadResources dir fuel b rest
      | some contents =>
        match parseCapture contents with
        | none => none
        | some pc =>
          loadResources dir fuel (insertUnderKey (urlKey url) pc b)
            (pc.pushUrls ++ rest)

/-- The number of push URLs a capture file contributes when parsed. -/
def pushLen (contents : Str) : Nat :=
  match parseCapture contents with
  | none => 0
  | some pc => pc.pushUrls.length

/-- The number of push URLs that could still be discovered from the
directory given the store's present keys: a directory entry contributes its
parse's push-URL count while its derived key is absent from the store.
Together with the worklist length this bounds the remaining work of
`loadResources`. -/
def potential (b : QuicMemoryCacheBackend) : CaptureDir → Nat
  | [] => 0
  | (base, contents) :: rest =>
    (if containsKey b (urlKey base) then 0 else pushLen contents)
    + potential b rest

/-- Parse every file of the directory, keeping the base paths; `none` as
soon as one file fails to parse (spec section 4.3: a parse failure is fatal
to the whole bootstrap). -/
def parseAll : CaptureDir → Option (List (Str × ParsedCapture))
  | [] => some []
  | (base, contents) :: rest =>
    match parseCapture contents with
    | none => none
    | some pc => (parseAll rest).map (fun l => (base, pc) :: l)

/-- Modelled from the spec: `InitializeBackend` (body not in the sources).
Parses every file of the directory (any parse failure makes the whole
bootstrap fail), inserts each under its derived `(host, path)` (the
`x-original-url` override supersedes the base-path derivation), then loads
every discovered push URL recursively, skipping keys already present, and
finally marks the cache initialized (spec section 4.3, Bootstrap).  The
fuel passed to `loadResources` is one more than the worklist length plus
the directory's remaining `potential`, which is proved sufficient below:
the recursion inserts a new directory key before every descent. -/
def initializeBackend (dir : CaptureDir) (b : QuicMemoryCacheBackend) :
    Option QuicMemoryCacheBackend :=
  match parseAll dir with
  | none => none
  | some parsed =>
    let b1 := parsed.foldl
      (fun acc e =>
        insertUnderKey (GetKey (captureHostPath e.1 e.2).1 (captureHostPath e.1 e.2).2)
          e.2 acc) b
    let worklist := (parsed.map (fun e => e.2.pushUrls)).flatten
    match loadResources dir (worklist.length + potential b1 dir + 1) b1 worklist with
    | none => none
    | some b2 => some { b2 with cache_initialized := true }

/-! ### Delivery state machine
(model of `FetchResponseFromBackend` / `CloseBackendResponseStream`)

Request handles are identified by numbers.  The machine records, per
handle, the delay-scheduled deliveries still pending, the deliveries that
have happened, and the set of closed handles.  Timer expiry is the `fire`
event; cancellation is cooperative: a firing task checks whether its handle
was closed in the interim (spec sections 4.3 Delivery/Cancellation
and 5). -/

/-- The delivery-side state: delay-scheduled pending deliveries, completed
deliveries, and the closed handles. -/
structure ServerState : Type where
  pending : List (Nat × QuicBackendResponse)
  delivered : List (Nat × QuicBackendResponse)
  closed : List Nat
deriving DecidableEq, Repr

/-- The empty delivery state. -/
def initialServerState : ServerState := { pending := [], delivered := [], closed := [] }

/-- Events of the delivery machine: a request arriving on a handle, the
server closing a handle's response stream, and a scheduled delay timer
firing for a handle. -/
inductive BackendEvent : Type
  | fetch (handle : Nat) (host path : Str)
  | close (handle : Nat)
  | fire (handle : Nat)
deriving DecidableEq, Repr

/-- Modelled from the spec: the 404-equivalent response built in-line when
lookup fails entirely (spec section 4.3, Delivery; section 7, NotFound). -/
def notFoundResponse : QuicBackendResponse :=
  { response_type := SpecialResponseType.REGULAR_RESPONSE
    headers := [(str ":status", str "404")]
    body := str "Not Found"
    trailers := []
    early_hints := []
    delay := none }

/-- Modelled from the spec: one step of the delivery machine over a fixed
store `b`.

`fetch`: nothing is ever delivered on a closed handle (spec section 4.3,
Cancellation: after a close, no delivery occurs for the handle under any
circumstance, including the default-miss case).  Otherwise the looked-up
entry — or the in-line 404 on a total miss — is dispatched on its special
type: `IgnoreRequest` delivers nothing, `CloseConnection` terminates the
connection without a response body, and the remaining types deliver: with a
delay the delivery is scheduled (pending), without one it happens
synchronously.

`close`: records the handle as closed and cancels its pending scheduled
deliveries.

`fire`: a scheduled delivery fires; it checks at fire time whether its
handle was closed in the interim and is a no-op in that case (cooperative
cancellation, spec section 5). -/
def step (b : QuicMemoryCacheBackend) (s : ServerState) :
    BackendEvent → ServerState
  | BackendEvent.fetch h host path =>
    if s.closed.contains h then s
    else
      let r := (GetResponse b host path).getD notFoundResponse
      match r.response_type with
      | SpecialResponseType.IGNORE_REQUEST => s
      | SpecialResponseType.CLOSE_CONNECTION => s
      | _ =>
        match r.delay with
        | some _ => { s with pending := (h, r) :: s.pending }
        | none => { s with delivered := (h, r) :: s.delivered }
  | BackendEvent.close h =>
    { s with
      closed := h :: s.closed
      pending := s.pending.filter (fun e => e.1 ≠ h) }
  | BackendEvent.fire h =>
    match lookupAssoc h s.pending with
    | none => s
    | some r =>
      if s.closed.contains h then s
      else
        { s with
          delivered := (h, r) :: s.delivered
          pending := s.pending.filter (fun e => e.1 ≠ h) }

/-- Run the delivery machine over a sequence of events. -/
def run (b : QuicMemoryCacheBackend) (s : ServerState) :
    List BackendEvent → ServerState
  | [] => s
  | ev :: evs => run b (step b s ev) evs

/-- The deliveries recorded for a given handle. -/
def deliveredFor (s : ServerState) (h : Nat) : List QuicBackendResponse :=
  (s.delivered.filter (fun e => e.1 = h)).map (fun e => e.2)

/-- The pending scheduled deliveries for a given handle. -/
def pendingFor (s : ServerState) (h : Nat) : List QuicBackendResponse :=
  (s.pending.filter (fun e => e.1 = h)).map (fun e => e.2)

/-! ### The cycle example of the specification (two captures whose push
hints reference each other) -/

/-- A capture whose push hint references `cycleFileB`'s resource. -/
def cycleFileA : Str :=
  str "HTTP/1.1 200 OK\nx-push-url: https://bhost.com/y.html\n\nbodyA"

/-- A capture whose push hint references `cycleFileA`'s resource. -/
def cycleFileB : Str :=
  str "HTTP/1.1 200 OK\nx-push-url: https://ahost.com/x.html\n\nbodyB"

/-- The capture directory holding the two mutually referencing captures. -/
def cycleDir : CaptureDir :=
  [(str "ahost.com/x.html", cycleFileA), (str "bhost.com/y.html", cycleFileB)]

/-- How many entries of a bootstrapped store sit under a given key. -/
def keyCount (ob : Option QuicMemoryCacheBackend) (k : Str) : Option Nat :=
  ob.map (fun b => (b.responses.map Prod.fst).count k)

/-! ### Helper lemmas -/

theorem runLookups_id (qs : List (Str × Str)) :
    ∀ b : QuicMemoryCacheBackend, runLookups b qs = b := by
  induction qs with
  | nil => intro b; rfl
  | cons q rest ih =>
    intro b
    obtain ⟨host, path⟩ := q
    exact ih b

theorem append_cons_inj {α : Type} (x : α) :
    ∀ (a c b d : List α), x ∉ a → x ∉ c →
      a ++ x :: b = c ++ x :: d → a = c ∧ b = d := by
  intro a
  induction a with
  | nil =>
    intro c b d _ hc h
    cases c with
    | nil =>
      simp only [List.nil_append, List.cons.injEq] at h
      exact ⟨rfl, h.2⟩
    | cons y c' =>
      simp only [List.nil_append, List.cons_append, List.cons.injEq] at h
      exact absurd (h.1 ▸ List.mem_cons_self y c') hc
  | cons y a' ih =>
    intro c b d ha hc h
    cases c with
    | nil =>
      simp only [List.cons_append, List.nil_append, List.cons.injEq] at h
      exact absurd (h.1 ▸ List.mem_cons_self y a') ha
    | cons z c' =>
      simp only [List.cons_append, List.cons.injEq] at h
      have ha' : x ∉ a' := fun hx => ha (List.mem_cons_of_mem _ hx)
      have hc' : x ∉ c' := fun hx => hc (List.mem_cons_of_mem _ hx)
      obtain ⟨h1, h2⟩ := ih c' b d ha' hc' h.2
      exact ⟨by rw [h.1, h1], h2⟩

theorem parseAll_of_mem_bad (base contents : Str)
    (hpc : parseCapture contents = none) :
    ∀ dir : CaptureDir, (base, contents) ∈ dir → parseAll dir = none := by
  intro dir
  induction dir with
  | nil => intro h; cases h
  | cons e rest ih =>
    intro hmem
    obtain ⟨b0, c0⟩ := e
    rcases List.mem_cons.mp hmem with heq | htail
    · obtain ⟨hb, hc⟩ := Prod.mk.injEq .. ▸ heq
      simp only [parseAll]
      rw [show c0 = contents from congrArg Prod.snd heq.symm, hpc]
    · simp only [parseAll]
      cases hp0 : parseCapture c0 with
      | none => rfl
      | some pc => rw [ih htail]; rfl

theorem containsKey_insertUnderKey (b : QuicMemoryCacheBackend)
    (k k' : Str) (pc : ParsedCapture) :
    containsKey (insertUnderKey k pc b) k'
      = if k' = k then true else containsKey b k' := by
  simp only [containsKey, insertUnderKey, lookupAssoc_setAssoc]
  by_cases h : k' = k <;> simp [h]

theorem containsKey_insert_of (b : QuicMemoryCacheBackend)
    (k k' : Str) (pc : ParsedCapture) (h : containsKey b k' = true) :
    containsKey (insertUnderKey k pc b) k' = true := by
  rw [containsKey_insertUnderKey]
  by_cases hk : k' = k <;> simp [hk, h]

theorem loadResources_skip (dir : CaptureDir) (fuel : Nat)
    (b : QuicMemoryCacheBackend) (url : Str) (rest : List Str)
    (hc : containsKey b (urlKey url) = true) :
    loadResources dir (fuel + 1) b (url :: rest) = loadResources dir fuel b rest := by
  simp [loadResources, hc]

theorem loadResources_no_file (dir : CaptureDir) (fuel : Nat)
    (b : QuicMemoryCacheBackend) (url : Str) (rest : List Str)
    (hc : containsKey b (urlKey url) = false)
    (hlk : lookupAssoc url dir = none) :
    loadResources dir (fuel + 1) b (url :: rest) = loadResources dir fuel b rest := by
  simp [loadResources, hc, hlk]

theorem loadResources_parse_fail (dir : CaptureDir) (fuel : Nat)
    (b : QuicMemoryCacheBackend) (url contents : Str) (rest : List Str)
    (hc : containsKey b (urlKey url) = false)
    (hlk : lookupAssoc url dir = some contents)
    (hpc : parseCapture contents = none) :
    loadResources dir (fuel + 1) b (url :: rest) = none := by
  simp [loadResources, hc, hlk, hpc]

theorem loadResources_parse_ok (dir : CaptureDir) (fuel : Nat)
    (b : QuicMemoryCacheBackend) (url contents : Str) (rest : List Str)
    (pc : ParsedCapture)
    (hc : containsKey b (urlKey url) = false)
    (hlk : lookupAssoc url dir = some contents)
    (hpc : parseCapture contents = some pc) :
    loadResources dir (fuel + 1) b (url :: rest)
      = loadResources dir fuel (insertUnderKey (urlKey url) pc b)
          (pc.pushUrls ++ rest) := by
  simp [loadResources, hc, hlk, hpc]

theorem potential_mono (b b' : QuicMemoryCacheBackend)
    (hsub : ∀ k, containsKey b k = true → containsKey b' k = true) :
    ∀ dir : CaptureDir, potential b' dir ≤ potential b dir := by
  intro dir
  induction dir with
  | nil => exact Nat.le_refl 0
  | cons e rest ih =>
    obtain ⟨base, contents⟩ := e
    simp only [potential]
    refine Nat.add_le_add ?_ ih
    by_cases hc : containsKey b (urlKey base) = true
    · simp [hc, hsub _ hc]
    · rw [if_neg hc]
      by_cases hc' : containsKey b' (urlKey base) = true
      · simp [hc']
      · rw [if_neg hc']

theorem potential_insert_lt (b : QuicMemoryCacheBackend)
    (url contents : Str) (pc : ParsedCapture)
    (hpc : parseCapture contents = some pc)
    (hmiss : containsKey b (urlKey url) = false) :
    ∀ dir : CaptureDir, lookupAssoc url dir = some contents →
      potential (insertUnderKey (urlKey url) pc b) dir + pc.pushUrls.length
        ≤ potential b dir := by
  have hsub : ∀ k, containsKey b k = true →
      containsKey (insertUnderKey (urlKey url) pc b) k = true :=
    fun k hk => containsKey_insert_of b (urlKey url) k pc hk
  intro dir
  induction dir with
  | nil => intro h; cases h
  | cons e rest ih =>
    obtain ⟨base, c0⟩ := e
    intro hlk
    simp only [lookupAssoc] at hlk
    by_cases hb : base = url
    · subst hb
      rw [if_pos rfl] at hlk
      have hc0 : c0 = contents := by injection hlk
      subst hc0
      simp only [potential]
      have hL : containsKey (insertUnderKey (urlKey base) pc b) (urlKey base) = true := by
        rw [containsKey_insertUnderKey]; simp
      have hR : ¬ containsKey b (urlKey base) = true := by simp [hmiss]
      rw [if_pos hL, if_neg hR]
      have hlen : pushLen c0 = pc.pushUrls.length := by simp [pushLen, hpc]
      have hm := potential_mono b (insertUnderKey (urlKey base) pc b) hsub rest
      omega
    · rw [if_neg hb] at hlk
      have htail := ih hlk
      simp only [potential]
      have hterm :
          (if containsKey (insertUnderKey (urlKey url) pc b) (urlKey base) then 0
           else pushLen c0)
          ≤ (if containsKey b (urlKey base) then 0 else pushLen c0) := by
        by_cases hc : containsKey b (urlKey base) = true
        · simp [hc, hsub _ hc]
        · rw [if_neg hc]
          by_cases hc' :
              containsKey (insertUnderKey (urlKey url) pc b) (urlKey base) = true
          · simp [hc']
          · rw [if_neg hc']
      omega

theorem loadResources_fuel_irrel (dir : CaptureDir) :
    ∀ f₁ f₂ (b : QuicMemoryCacheBackend) (ws : List Str),
      ws.length + potential b dir < f₁ →
      ws.length + potential b dir < f₂ →
      loadResources dir f₁ b ws = loadResources dir f₂ b ws := by
  intro f₁
  induction f₁ with
  | zero => intro f₂ b ws h1 _; exact absurd h1 (Nat.not_lt_zero _)
  | succ m ih =>
    intro f₂ b ws h1 h2
    match f₂, ws with
    | 0, ws => exact absurd h2 (Nat.not_lt_zero _)
    | f₂' + 1, [] => rfl
    | f₂' + 1, url :: rest =>
      simp only [List.length_cons] at h1 h2
      by_cases hc : containsKey b (urlKey url) = true
      · rw [loadResources_skip dir m b url rest hc,
          loadResources_skip dir f₂' b url rest hc]
        exact ih f₂' b rest (by omega) (by omega)
      · have hc' : containsKey b (urlKey url) = false := by
          simpa using hc
        cases hlk : lookupAssoc url dir with
        | none =>
          rw [loadResources_no_file dir m b url rest hc' hlk,
            loadResources_no_file dir f₂' b url rest hc' hlk]
          exact ih f₂' b rest (by omega) (by omega)
        | some contents =>
          cases hpc : parseCapture contents with
          | none =>
            rw [loadResources_parse_fail dir m b url contents rest hc' hlk hpc,
              loadResources_parse_fail dir f₂' b url contents rest hc' hlk hpc]
          | some pc =>
            rw [loadResources_parse_ok dir m b url contents rest pc hc' hlk hpc,
              loadResources_parse_ok dir f₂' b url contents rest pc hc' hlk hpc]
            have hstep := potential_insert_lt b url contents pc hpc hc' dir hlk
            refine ih f₂' (insertUnderKey (urlKey url) pc b) (pc.pushUrls ++ rest)
              ?_ ?_ <;>
              simp only [List.length_append] <;> omega

theorem mem_keys_setAssoc {κ α : Type} [DecidableEq κ] (k k'' : κ) (v : α) :
    ∀ l : List (κ × α),
      k'' ∈ (setAssoc k v l).map Prod.fst ↔ k'' = k ∨ k'' ∈ l.map Prod.fst := by
  intro l
  induction l with
  | nil => simp [setAssoc]
  | cons e rest ih =>
    obtain ⟨k₀, v₀⟩ := e
    by_cases h : k₀ = k
    · subst h
      have hset : setAssoc k₀ v ((k₀, v₀) :: rest) = (k₀, v) :: rest := by
        simp [setAssoc]
      rw [hset]
      simp only [List.map_cons, List.mem_cons]
      tauto
    · have hset : setAssoc k v ((k₀, v₀) :: rest)
          = (k₀, v₀) :: setAssoc k v rest := by
        simp [setAssoc, h]
      rw [hset]
      simp only [List.map_cons, List.mem_cons, ih]
      tauto

theorem nodup_keys_setAssoc {κ α : Type} [DecidableEq κ] (k : κ) (v : α) :
    ∀ l : List (κ × α), (l.map Prod.fst).Nodup →
      ((setAssoc k v l).map Prod.fst).Nodup := by
  intro l
  induction l with
  | nil => intro _; simp [setAssoc]
  | cons e rest ih =>
    obtain ⟨k₀, v₀⟩ := e
    intro hnd
    simp only [List.map_cons, List.nodup_cons] at hnd
    by_cases h : k₀ = k
    · subst h
      have hset : setAssoc k₀ v ((k₀, v₀) :: rest) = (k₀, v) :: rest := by
        simp [setAssoc]
      rw [hset]
      simp only [List.map_cons, List.nodup_cons]
      exact hnd
    · have hset : setAssoc k v ((k₀, v₀) :: rest)
          = (k₀, v₀) :: setAssoc k v rest := by
        simp [setAssoc, h]
      rw [hset]
      simp only [List.map_cons, List.nodup_cons]
      refine ⟨?_, ih hnd.2⟩
      rw [mem_keys_setAssoc]
      rintro (heq | hmem)
      · exact h heq
      · exact hnd.1 hmem

theorem nodup_keys_loadResources (dir : CaptureDir) :
    ∀ (fuel : Nat) (b b' : QuicMemoryCacheBackend) (ws : List Str),
      loadResources dir fuel b ws = some b' →
      (b.responses.map Prod.fst).Nodup → (b'.responses.map Prod.fst).Nodup := by
  intro fuel
  induction fuel with
  | zero =>
    intro b b' ws hl hnd
    match ws with
    | [] => cases hl; exact hnd
    | _ :: _ => cases hl
  | succ m ih =>
    intro b b' ws hl hnd
    match ws with
    | [] => cases hl; exact hnd
    | url :: rest =>
      by_cases hc : containsKey b (urlKey url) = true
      · rw [loadResources_skip dir m b url rest hc] at hl
        exact ih b b' rest hl hnd
      · have hc' : containsKey b (urlKey url) = false := by simpa using hc
        cases hlk : lookupAssoc url dir with
        | none =>
          rw [loadResources_no_file dir m b url rest hc' hlk] at hl
          exact ih b b' rest hl hnd
        | some contents =>
          cases hpc : parseCapture contents with
          | none =>
            rw [loadResources_parse_fail dir m b url contents rest hc' hlk hpc] at hl
            cases hl
          | some pc =>
            rw [loadResources_parse_ok dir m b url contents rest pc hc' hlk hpc] at hl
            exact ih _ b' (pc.pushUrls ++ rest) hl
              (nodup_keys_setAssoc _ _ b.responses hnd)

theorem nodup_keys_foldl_insert
    (parsed : List (Str × ParsedCapture)) :
    ∀ b : QuicMemoryCacheBackend, (b.responses.map Prod.fst).Nodup →
      ((parsed.foldl
        (fun acc e =>
          insertUnderKey
            (GetKey (captureHostPath e.1 e.2).1 (captureHostPath e.1 e.2).2)
            e.2 acc) b).responses.map Prod.fst).Nodup := by
  induction parsed with
  | nil => intro b hnd; exact hnd
  | cons e rest ih =>
    intro b hnd
    exact ih _ (nodup_keys_setAssoc _ _ b.responses hnd)

theorem nodup_keys_initializeBackend (dir : CaptureDir)
    (b' : QuicMemoryCacheBackend)
    (hinit : initializeBackend dir initialBackend = some b') :
    (b'.responses.map Prod.fst).Nodup := by
  unfold initializeBackend at hinit
  cases hpa : parseAll dir with
  | none => rw [hpa] at hinit; cases hinit
  | some parsed =>
    rw [hpa] at hinit
    simp only at hinit
    cases hld : loadResources dir _ _ _ with
    | none => rw [hld] at hinit; cases hinit
    | some b2 =>
      rw [hld] at hinit
      have hb2 : b2.responses = b'.responses := by
        injection hinit with h
        rw [← h]
      rw [← hb2]
      exact nodup_keys_loadResources dir _ _ b2 _ hld
        (nodup_keys_foldl_insert parsed initialBackend (by simp [initialBackend]))

theorem filter_filter_nil {α : Type} (p q : α → Bool) :
    ∀ l : List α, l.filter p = [] → (l.filter q).filter p = [] := by
  intro l
  induction l with
  | nil => intro _; rfl
  | cons a l ih =>
    intro hp
    rw [List.filter_cons] at hp
    by_cases hpa : p a = true
    · rw [if_pos hpa] at hp; cases hp
    · rw [if_neg hpa] at hp
      rw [List.filter_cons]
      by_cases hqa : q a = true
      · rw [if_pos hqa, List.filter_cons, if_neg hpa]
        exact ih hp
      · rw [if_neg hqa]
        exact ih hp

theorem filter_incompat {α : Type} (p q : α → Bool)
    (hpq : ∀ a, q a = true → p a = false) :
    ∀ l : List α, (l.filter q).filter p = [] := by
  intro l
  induction l with
  | nil => rfl
  | cons a l ih =>
    rw [List.filter_cons]
    by_cases hqa : q a = true
    · rw [if_pos hqa, List.filter_cons, if_neg (by simp [hpq a hqa])]
      exact ih
    · rw [if_neg hqa]
      exact ih

theorem step_closed_mono (b : QuicMemoryCacheBackend) (s : ServerState)
    (ev : BackendEvent) (h : Nat) (hs : s.closed.contains h = true) :
    (step b s ev).closed.contains h = true := by
  cases ev with
  | fetch h' host path =>
    simp only [step]
    split
    · exact hs
    · split
      · exact hs
      · exact hs
      · split
        · exact hs
        · exact hs
  | close h' =>
    simp only [step]
    rw [List.contains_cons]
    simp only [Bool.or_eq_true]
    exact Or.inr hs
  | fire h' =>
    simp only [step]
    split
    · exact hs
    · split
      · exact hs
      · exact hs

theorem step_delivered_of_closed (b : QuicMemoryCacheBackend) (s : ServerState)
    (ev : BackendEvent) (h : Nat) (hs : s.closed.contains h = true) :
    deliveredFor (step b s ev) h = deliveredFor s h := by
  cases ev with
  | fetch h' host path =>
    simp only [step]
    split
    · rfl
    · rename_i hcl
      have hne : h' ≠ h := fun heq => hcl (heq ▸ hs)
      split
      · rfl
      · rfl
      · split
        · rfl
        · simp [deliveredFor, List.filter_cons, hne]
  | close h' => rfl
  | fire h' =>
    simp only [step]
    split
    · rfl
    · split
      · rfl
      · rename_i hcl
        have hne : h' ≠ h := fun heq => hcl (heq ▸ hs)
        simp [deliveredFor, List.filter_cons, hne]

theorem step_pending_of_closed (b : QuicMemoryCacheBackend) (s : ServerState)
    (ev : BackendEvent) (h : Nat) (hs : s.closed.contains h = true)
    (hp : pendingFor s h = []) :
    pendingFor (step b s ev) h = [] := by
  have hfil : s.pending.filter (fun e => decide (e.1 = h)) = [] :=
    List.map_eq_nil_iff.mp hp
  cases ev with
  | fetch h' host path =>
    simp only [step]
    split
    · exact hp
    · rename_i hcl
      have hne : h' ≠ h := fun heq => hcl (heq ▸ hs)
      split
      · exact hp
      · exact hp
      · split
        · simp only [pendingFor, List.filter_cons]
          rw [if_neg (by simp [hne])]
          exact hp
        · exact hp
  | close h' =>
    simp only [pendingFor, step]
    rw [filter_filter_nil _ _ s.pending hfil]
    rfl
  | fire h' =>
    simp only [step]
    split
    · exact hp
    · split
      · exact hp
      · simp only [pendingFor]
        rw [filter_filter_nil _ _ s.pending hfil]
        rfl

theorem run_closed_invariant (b : QuicMemoryCacheBackend) (h : Nat) :
    ∀ (evs : List BackendEvent) (s : ServerState),
      s.closed.contains h = true → pendingFor s h = [] →
      deliveredFor (run b s evs) h = deliveredFor s h ∧
      pendingFor (run b s evs) h = [] ∧
      (run b s evs).closed.contains h = true := by
  intro evs
  induction evs with
  | nil => intro s h1 h2; exact ⟨rfl, h2, h1⟩
  | cons ev evs ih =>
    intro s h1 h2
    have hc := step_closed_mono b s ev h h1
    have hd := step_delivered_of_closed b s ev h h1
    have hpd := step_pending_of_closed b s ev h h1 h2
    obtain ⟨d1, d2, d3⟩ := ih (step b s ev) hc hpd
    refine ⟨?_, d2, d3⟩
    show deliveredFor (run b (step b s ev) evs) h = deliveredFor s h
    rw [d1, hd]

theorem getResponse_of_lookup (b : QuicMemoryCacheBackend) (host path : Str)
    (r : QuicBackendResponse)
    (h : lookupAssoc (GetKey host path) b.responses = some r) :
    GetResponse b host path = some r := by
  simp [GetResponse, h]

theorem getResponse_of_miss (b : QuicMemoryCacheBackend) (host path : Str)
    (h : lookupAssoc (GetKey host path) b.responses = none)
    (hd : b.default_response = none)
    (hg : b.generate_bytes_response = none) :
    GetResponse b host path = none := by
  simp [GetResponse, h, hd, hg]

theorem getResponse_some_elim (b : QuicMemoryCacheBackend) (host path : Str)
    (r : QuicBackendResponse)
    (hd : b.default_response = none)
    (hg : b.generate_bytes_response = none)
    (h : GetResponse b host path = some r) :
    lookupAssoc (GetKey host path) b.responses = some r := by
  cases hlv : lookupAssoc (GetKey host path) b.responses with
  | some r0 =>
    rw [getResponse_of_lookup b host path r0 hlv] at h
    injection h with h
    exact congrArg some h
  | none =>
    rw [getResponse_of_miss b host path hlv hd hg] at h
    cases h

/-! ### The claims -/

/-- C1: for every host and path, lookup resolves in this exact fallback
order: an entry stored under the derived key is returned; otherwise the
default entry, if set, is returned; otherwise, if dynamic mode is enabled
and the path parses as a non-negative decimal integer, the synthesized
transient entry of that many body bytes (status 200, content-length
header) is returned; otherwise lookup returns not-found (`none`). -/
theorem c1_getResponse_fallback_order (b : QuicMemoryCacheBackend)
    (host path : Str) :
    (∀ r, lookupAssoc (GetKey host path) b.responses = some r →
      GetResponse b host path = some r) ∧
    (lookupAssoc (GetKey host path) b.responses = none →
      ∀ d, b.default_response = some d → GetResponse b host path = some d) ∧
    (lookupAssoc (GetKey host path) b.responses = none →
      b.default_response = none → b.generate_bytes_response.isSome = true →
      ∀ n, parseDec path = some n →
        GetResponse b host path = some (dynamicResponse n)) ∧
    (lookupAssoc (GetKey host path) b.responses = none →
      b.default_response = none →
      (b.generate_bytes_response.isSome = false ∨ parseDec path = none) →
      GetResponse b host path = none) := by
  refine ⟨?_, ?_, ?_, ?_⟩
  · intro r hr
    simp [GetResponse, hr]
  · intro h0 d hd
    simp [GetResponse, h0, hd]
  · intro h0 hd hg n hn
    simp [GetResponse, h0, hd, hg, hn]
  · intro h0 hd hg
    rcases hg with hg | hg <;> simp [GetResponse, h0, hd, hg]

/-- Witness for C1: all four fallback branches realized on concrete
stores. -/
theorem c1_witness :
    (GetResponse
      { responses := [(GetKey (str "h") (str "/p"), notFoundResponse)]
        default_response := none
        generate_bytes_response := none
        cache_initialized := false
        enable_webtransport := false } (str "h") (str "/p")
      = some notFoundResponse) ∧
    (GetResponse { initialBackend with default_response := some notFoundResponse }
      (str "h") (str "/p") = some notFoundResponse) ∧
    (GetResponse (GenerateDynamicResponses initialBackend) (str "h") (str "1024")
      = some (dynamicResponse 1024)) ∧
    (GetResponse initialBackend (str "h") (str "/p") = none) := by
  refine ⟨?_, ?_, ?_, ?_⟩
  · exact (c1_getResponse_fallback_order
      { responses := [(GetKey (str "h") (str "/p"), notFoundResponse)]
        default_response := none
        generate_bytes_response := none
        cache_initialized := false
        enable_webtransport := false } (str "h") (str "/p")).1
      notFoundResponse (by decide)
  · exact (c1_getResponse_fallback_order
      { initialBackend with default_response := some notFoundResponse }
      (str "h") (str "/p")).2.1 rfl notFoundResponse rfl
  · exact (c1_getResponse_fallback_order
      (GenerateDynamicResponses initialBackend) (str "h") (str "1024")).2.2.1
      rfl rfl rfl 1024 (by decide)
  · exact (c1_getResponse_fallback_order initialBackend
      (str "h") (str "/p")).2.2.2 rfl rfl (Or.inl rfl)

/-- C2: inserting a response via `AddResponse` and looking the same host
and path up returns an entry whose body is the inserted body,
byte-for-byte. -/
theorem c2_insert_lookup_roundtrip (b : QuicMemoryCacheBackend)
    (host path : Str) (hdrs : List (Str × Str)) (bd : Str) :
    ∃ r, GetResponse (AddResponse b host path hdrs bd) host path = some r ∧
      r.body = bd := by
  refine ⟨{ response_type := SpecialResponseType.REGULAR_RESPONSE
            headers := hdrs
            body := bd
            trailers := []
            early_hints := []
            delay := none }, ?_, rfl⟩
  simp [GetResponse, AddResponse, AddResponseImpl, lookupAssoc_setAssoc]

/-- C3: inserting a second entry under an occupied key replaces the first
entry entirely: the next lookup returns the new body, and (when the old
body occurs nowhere else in the store, the default and generate-bytes
entries are unset, and the bodies differ) the old body is no longer
reachable through any lookup. -/
theorem c3_last_write_wins (b : QuicMemoryCacheBackend) (host path : Str)
    (hdrs1 hdrs2 : List (Str × Str)) (body1 body2 : Str)
    (hdef : b.default_response = none)
    (hgen : b.generate_bytes_response = none)
    (hold : ∀ k r, lookupAssoc k b.responses = some r → r.body ≠ body1)
    (hne : body1 ≠ body2) :
    (∃ r, GetResponse (AddResponse (AddResponse b host path hdrs1 body1)
        host path hdrs2 body2) host path = some r ∧ r.body = body2) ∧
    (∀ host' path' r,
      GetResponse (AddResponse (AddResponse b host path hdrs1 body1)
        host path hdrs2 body2) host' path' = some r → r.body ≠ body1) := by
  constructor
  · refine ⟨{ response_type := SpecialResponseType.REGULAR_RESPONSE
              headers := hdrs2
              body := body2
              trailers := []
              early_hints := []
              delay := none }, ?_, rfl⟩
    simp [GetResponse, AddResponse, AddResponseImpl, lookupAssoc_setAssoc]
  · intro host' path' r hr
    have hl := getResponse_some_elim
      (AddResponse (AddResponse b host path hdrs1 body1) host path hdrs2 body2)
      host' path' r hdef hgen hr
    simp only [AddResponse, AddResponseImpl] at hl
    rw [lookupAssoc_setAssoc, lookupAssoc_setAssoc] at hl
    by_cases hk : GetKey host' path' = GetKey host path
    · rw [if_pos hk] at hl
      injection hl with hl
      rw [← hl]
      exact fun hb => hne (hb.symm)
    · rw [if_neg hk, if_neg hk] at hl
      exact hold _ r hl

/-- Witness for C3: the double insertion on the empty store. -/
theorem c3_witness :
    (∃ r, GetResponse (AddResponse (AddResponse initialBackend (str "h")
        (str "/p") [] (str "a")) (str "h") (str "/p") [] (str "b"))
        (str "h") (str "/p") = some r ∧ r.body = str "b") ∧
    (∀ host' path' r,
      GetResponse (AddResponse (AddResponse initialBackend (str "h")
        (str "/p") [] (str "a")) (str "h") (str "/p") [] (str "b"))
        host' path' = some r → r.body ≠ str "a") :=
  c3_last_write_wins initialBackend (str "h") (str "/p") [] [] (str "a")
    (str "b") rfl rfl (fun _ _ h => nomatch h) (by decide)

/-- C4: with dynamic mode enabled, a decimal-path lookup that misses the
map synthesizes the response fresh (body of exactly `n` bytes and a
matching content-length header) and never mutates the store: any number of
lookups leaves the state, in particular the set of cached entries, exactly
as it was. -/
theorem c4_dynamic_lookup_frame (b : QuicMemoryCacheBackend)
    (host path : Str) (n : Nat)
    (hmiss : lookupAssoc (GetKey host path) b.responses = none)
    (hdef : b.default_response = none)
    (hdyn : b.generate_bytes_response.isSome = true)
    (hnum : parseDec path = some n) :
    GetResponse b host path = some (dynamicResponse n) ∧
    (dynamicResponse n).body.length = n ∧
    lookupAssoc (str "content-length") (dynamicResponse n).headers
      = some (natToStr n) ∧
    (∀ qs, runLookups b qs = b) ∧
    (∀ qs, (runLookups b qs).responses = b.responses) := by
  refine ⟨?_, ?_, ?_, fun qs => runLookups_id qs b,
    fun qs => by rw [runLookups_id qs b]⟩
  · simp [GetResponse, hmiss, hdef, hdyn, hnum]
  · simp [dynamicResponse]
  · have hne : ¬ (str ":status" = str "content-length") := by decide
    simp [dynamicResponse, lookupAssoc, hne]

/-- Witness for C4: the dynamic-mode store, path `1024`. -/
theorem c4_witness :
    GetResponse (GenerateDynamicResponses initialBackend) (str "h")
      (str "1024") = some (dynamicResponse 1024) ∧
    (dynamicResponse 1024).body.length = 1024 ∧
    lookupAssoc (str "content-length") (dynamicResponse 1024).headers
      = some (natToStr 1024) ∧
    (∀ qs, runLookups (GenerateDynamicResponses initialBackend) qs
      = GenerateDynamicResponses initialBackend) ∧
    (∀ qs, (runLookups (GenerateDynamicResponses initialBackend) qs).responses
      = (GenerateDynamicResponses initialBackend).responses) :=
  c4_dynamic_lookup_frame (GenerateDynamicResponses initialBackend)
    (str "h") (str "1024") 1024 rfl rfl rfl (by decide)

/-- C5: the cache key is the deterministic concatenation of host and path
around a separator that occurs in neither component, and the derivation is
injective: equal keys force equal hosts and equal paths. -/
theorem c5_getKey_injective (host1 path1 host2 path2 : Str)
    (h1 : keySep ∉ host1) (h2 : keySep ∉ host2)
    (heq : GetKey host1 path1 = GetKey host2 path2) :
    host1 = host2 ∧ path1 = path2 :=
  append_cons_inj keySep host1 host2 path1 path2 h1 h2 heq

/-- Witness for C5: concrete hosts and paths free of the separator. -/
theorem c5_witness :
    keySep ∉ str "ahost.com" ∧
    (str "ahost.com" = str "ahost.com" ∧ str "/x" = str "/x") :=
  ⟨by decide,
    c5_getKey_injective (str "ahost.com") (str "/x") (str "ahost.com")
      (str "/x") (by decide) (by decide) rfl⟩

/-- C7: a capture file that cannot be split into a header block and a body
at a blank-line separator, or whose status line is unparsable, makes the
whole bootstrap fail: `initializeBackend` returns `none` (false). -/
theorem c7_malformed_capture_fatal (dir : CaptureDir) (base contents : Str)
    (b : QuicMemoryCacheBackend) (hmem : (base, contents) ∈ dir)
    (hbad : splitBlank contents = none ∨
      ∃ hb bod, splitBlank contents = some (hb, bod) ∧
        parseStatus ((splitLines hb).headD []) = none) :
    initializeBackend dir b = none := by
  have hpc : parseCapture contents = none := by
    rcases hbad with hb | ⟨hb, bod, hsplit, hstat⟩
    · simp only [parseCapture, hb]
    · simp only [parseCapture, hsplit]
      rw [hstat]
  unfold initializeBackend
  rw [parseAll_of_mem_bad base contents hpc dir hmem]

/-- Witness for C7: a one-file directory whose capture has no blank-line
separator. -/
theorem c7_witness :
    initializeBackend [(str "a.com/x", str "HTTP/1.1 200 OK")]
      initialBackend = none :=
  c7_malformed_capture_fatal _ (str "a.com/x") (str "HTTP/1.1 200 OK")
    initialBackend (by decide) (Or.inl (by decide))

/-- C9: `AddSimpleResponse` stores an entry whose headers are exactly the
status pseudo-header for the given response code and a single
content-length header whose value is the byte length of the body — and
nothing else. -/
theorem c9_addSimpleResponse_headers (b : QuicMemoryCacheBackend)
    (host path : Str) (response_code : Int) (bd : Str) :
    ∃ r, GetResponse (AddSimpleResponse b host path response_code bd)
        host path = some r ∧
      r.headers = [(str ":status", intToStr response_code),
        (str "content-length", natToStr bd.length)] ∧
      r.body = bd := by
  refine ⟨{ response_type := SpecialResponseType.REGULAR_RESPONSE
            headers := [(str ":status", intToStr response_code),
              (str "content-length", natToStr bd.length)]
            body := bd
            trailers := []
            early_hints := []
            delay := none }, ?_, rfl, rfl⟩
  simp [GetResponse, AddSimpleResponse, AddResponse, AddResponseImpl,
    lookupAssoc_setAssoc]

/-- C10: `GetResponse` is a pure read: the state-passing version leaves
every component of the store — the map, the default response, the
generate-bytes response, and both flags — exactly as it was. -/
theorem c10_getResponse_pure_read (b : QuicMemoryCacheBackend)
    (host path : Str) :
    (GetResponseS b host path).2.responses = b.responses ∧
    (GetResponseS b host path).2.default_response = b.default_response ∧
    (GetResponseS b host path).2.generate_bytes_response
      = b.generate_bytes_response ∧
    (GetResponseS b host path).2.cache_initialized = b.cache_initialized ∧
    (GetResponseS b host path).2.enable_webtransport = b.enable_webtransport ∧
    (GetResponseS b host path).2 = b :=
  ⟨rfl, rfl, rfl, rfl, rfl, rfl⟩

/-- C6: bootstrap terminates on every capture directory, including
mutually referencing push graphs: (i) a push URL whose derived key is
already in the store is not re-parsed — it is skipped outright; (ii) the
bootstrap recursion is independent of its fuel above the
worklist-plus-potential measure, so on every directory the bounded
computation is already the recursion's fixpoint (termination); (iii) a
store bootstrapped from the initial state has no duplicate keys, so every
key is present at most once; (iv) on the concrete two-file cycle (A's push
hint references B, B's references A) bootstrap succeeds and both derived
keys are present exactly once. -/
theorem c6_bootstrap_cycle_safe :
    (∀ (dir : CaptureDir) (fuel : Nat) (b : QuicMemoryCacheBackend)
       (url : Str) (rest : List Str), containsKey b (urlKey url) = true →
       loadResources dir (fuel + 1) b (url :: rest)
         = loadResources dir fuel b rest) ∧
    (∀ (dir : CaptureDir) (f₁ f₂ : Nat) (b : QuicMemoryCacheBackend)
       (ws : List Str),
       ws.length + potential b dir < f₁ → ws.length + potential b dir < f₂ →
       loadResources dir f₁ b ws = loadResources dir f₂ b ws) ∧
    (∀ (dir : CaptureDir) (b' : QuicMemoryCacheBackend),
       initializeBackend dir initialBackend = some b' →
       (b'.responses.map Prod.fst).Nodup) ∧
    ((initializeBackend cycleDir initialBackend).isSome = true ∧
     keyCount (initializeBackend cycleDir initialBackend)
       (urlKey (str "ahost.com/x.html")) = some 1 ∧
     keyCount (initializeBackend cycleDir initialBackend)
       (urlKey (str "bhost.com/y.html")) = some 1) :=
  ⟨loadResources_skip, loadResources_fuel_irrel, nodup_keys_initializeBackend,
    by decide, by decide, by decide⟩

/-- Witness for C6: the skip, the fuel-independence and the no-duplicates
conclusions realized on the concrete cycle directory. -/
theorem c6_witness :
    (loadResources cycleDir (4 + 1)
      { responses := [(urlKey (str "ahost.com/x.html"), notFoundResponse)]
        default_response := none
        generate_bytes_response := none
        cache_initialized := false
        enable_webtransport := false } [str "ahost.com/x.html"]
      = loadResources cycleDir 4
        { responses := [(urlKey (str "ahost.com/x.html"), notFoundResponse)]
          default_response := none
          generate_bytes_response := none
          cache_initialized := false
          enable_webtransport := false } []) ∧
    (loadResources cycleDir 10 initialBackend []
      = loadResources cycleDir 20 initialBackend []) ∧
    (∃ b', initializeBackend cycleDir initialBackend = some b' ∧
      (b'.responses.map Prod.fst).Nodup) := by
  refine ⟨?_, ?_, ?_⟩
  · exact c6_bootstrap_cycle_safe.1 cycleDir 4 _ (str "ahost.com/x.html") []
      (by decide)
  · exact c6_bootstrap_cycle_safe.2.1 cycleDir 10 20 initialBackend []
      (by decide) (by decide)
  · cases hinit : initializeBackend cycleDir initialBackend with
    | none =>
      have hs : (initializeBackend cycleDir initialBackend).isSome = true := by
        decide
      rw [hinit] at hs
      cases hs
    | some b' =>
      exact ⟨b', rfl, c6_bootstrap_cycle_safe.2.2.1 cycleDir b' hinit⟩

/-- C8: closing a handle's response stream cancels any delay-scheduled
delivery still pending for that handle, and thereafter no delivery of any
kind — including the default-miss response — occurs for it: over any
continuation of events its delivered list never grows and nothing is ever
pending for it again. -/
theorem c8_close_cancels_delivery (b : QuicMemoryCacheBackend)
    (s : ServerState) (h : Nat) (evs : List BackendEvent) :
    pendingFor (step b s (BackendEvent.close h)) h = [] ∧
    deliveredFor (run b (step b s (BackendEvent.close h)) evs) h
      = deliveredFor s h ∧
    pendingFor (run b (step b s (BackendEvent.close h)) evs) h = [] := by
  have hpq : ∀ e : Nat × QuicBackendResponse,
      (fun e : Nat × QuicBackendResponse => decide (e.1 ≠ h)) e = true →
      (fun e : Nat × QuicBackendResponse => decide (e.1 = h)) e = false := by
    intro e he
    simp only [decide_eq_true_eq] at he
    simp [he]
  have hpend : pendingFor (step b s (BackendEvent.close h)) h = [] := by
    simp only [pendingFor, step]
    rw [filter_incompat _ _ hpq s.pending]
    rfl
  have hcl : (step b s (BackendEvent.close h)).closed.contains h = true := by
    simp only [step]
    rw [List.contains_cons]
    simp
  obtain ⟨d1, d2, _⟩ := run_closed_invariant b h evs _ hcl hpend
  exact ⟨hpend, by rw [d1]; rfl, d2⟩

end QuicMemCache
